import Mathlib

set_option autoImplicit false

/-!
# Verification of the STM32 digit-classifier protocol core

Shallow embedding of the hand-written core of `src/tinyML/Core/Src/main.c`:
the UART transaction state machine (`HAL_UART_RxCpltCallback`,
`HAL_UART_ErrorCallback`, the polling loop of `main`), and the inference
pipeline (`ProcessInference`, `AI_Run`, `SendResult`).

Bytes are modelled as `Nat` (values `< 256` where it matters); signed 8-bit
values as `Int` with the C cast-to-`int8_t` made explicit by wrapping modulo
256.  UART transmissions become an explicit list of `UartAction`s.  The Platform
I/O collaborator (vendor HAL, outside this repository) is modelled by its
interface: a receive can be armed into one of the two buffers
(`HAL_UART_Receive_IT`); a receive-complete or a receive-error event can only
be delivered while a receive is armed, and both conclude (disarm) it before
running the corresponding callback from `main.c`.
-/

/-- `#define IMG_SIZE 784` in `main.c`. -/
def IMG_SIZE : Nat := 784

/-- `#define NUM_CLASSES 10` in `main.c`. -/
def NUM_CLASSES : Nat := 10

/-- The `AppState_t` enum of `main.c`. -/
inductive AppState_t where
  | STATE_IDLE
  | STATE_WAIT_START
  | STATE_RECEIVE_IMAGE
  | STATE_PROCESS_IMAGE
deriving DecidableEq, Repr

/-- The two interrupt-receive targets of `main.c`: `start_cmd_buffer` and
`img_buffer`. -/
inductive RxTarget where
  | cmdBuf
  | imgBuf
deriving DecidableEq, Repr

/-- The byte count requested when arming a receive into each buffer:
`HAL_UART_Receive_IT(&huart2, start_cmd_buffer, 5)` and
`HAL_UART_Receive_IT(&huart2, img_buffer, IMG_SIZE)`. -/
def rxLen : RxTarget → Nat
  | .cmdBuf => 5
  | .imgBuf => IMG_SIZE

/-- An observable side effect: one `HAL_UART_Transmit` call with the given
ASCII payload. -/
inductive UartAction where
  | transmit (msg : String)
deriving DecidableEq, Repr

/-- Program points of the polling loop in `main`: about to test
`rx_complete`; about to run `ProcessInference` and re-arm (the `rx_complete`
branch body); about to test `rx_error`. -/
inductive LoopPC where
  | checkComplete
  | runPipeline
  | checkError
deriving DecidableEq, Repr

/-- The mutable globals of `main.c` shared between the interrupt context and
the polling loop, together with the Platform receive status.  `armed` records
the at-most-one outstanding interrupt receive (`Option` because the HAL holds
at most one); `armBusy` is raised if `HAL_UART_Receive_IT` is ever requested
while a receive is already outstanding (the HAL would refuse it with
`HAL_BUSY`); `pc` locates the polling loop of `main` between its atomic
sections. -/
structure Sys where
  app_state : AppState_t
  start_cmd_buffer : List Nat
  img_buffer : List Nat
  rx_complete : Bool
  rx_error : Bool
  armed : Option RxTarget
  armBusy : Bool
  pc : LoopPC
deriving DecidableEq, Repr

/-- `HAL_UART_Receive_IT(&huart2, buffer, length)`: arm an interrupt receive.
The vendor HAL accepts the request only when no receive is outstanding
(otherwise it returns `HAL_BUSY` and arms nothing); `armBusy` records that a
busy request happened. -/
def HAL_UART_Receive_IT (s : Sys) (t : RxTarget) : Sys :=
  match s.armed with
  | some _ => { s with armBusy := true }
  | none => { s with armed := some t }

/-- The 5-byte ASCII literal `"START"` compared by
`memcmp(start_cmd_buffer, "START", 5)`. -/
def START_TOKEN : List Nat := "START".toList.map Char.toNat

/-- Interpretation of the C cast `(int8_t) x` of an `int` value: two's
complement wrap-around into `[-128, 127]`. -/
def toInt8 (x : Int) : Int := (x + 128) % 256 - 128

/-- The quantization of one raw image byte, `(int8_t)(img_buffer[i] - 128)`
in `ProcessInference` (the `uint8_t` operand is promoted to `int` before the
subtraction, then cast back down). -/
def quantizeByte (b : Nat) : Int := toInt8 ((b : Int) - 128)

/-- The quantization loop of `ProcessInference`:
`for (i = 0; i < IMG_SIZE; i++) input_buffer[i] = (int8_t)(img_buffer[i] - 128);`. -/
def quantize (raw : List Nat) : List Int := raw.map quantizeByte

/-- The Inference Engine collaborator (`network.c`, vendor-generated, outside
the hand-written core).  `ready` abstracts `network && ai_input && ai_output`
being valid after `AI_Init`; `run` abstracts `ai_network_run`, returning the
batch count together with the scores written into `output_buffer`. -/
structure Engine where
  ready : Bool
  run : List Int → Int × List Int

/-- `AI_Run` of `main.c`: fail (-1, here `none`) when the engine handles are
not initialized or when `ai_network_run` returns a batch count different
from 1; otherwise succeed with the output scores. -/
def AI_Run (eng : Engine) (input : List Int) : Option (List Int) :=
  if eng.ready = false then none
  else
    let r := eng.run input
    if r.1 ≠ 1 then none else some r.2

/-- The argmax scan of `ProcessInference`, after its initialization
`predicted_class = 0; max_prob = output_buffer[0];`: `l` is the remaining
suffix starting at index `i`, `pred`/`maxp` the running best index and score;
the comparison is the strict `output_buffer[i] > max_prob`. -/
def predictedClassAux : List Int → Nat → Nat → Int → Nat
  | [], _, pred, _ => pred
  | x :: xs, i, pred, maxp =>
    if maxp < x then predictedClassAux xs (i + 1) i x
    else predictedClassAux xs (i + 1) pred maxp

/-- The predicted class computed by `ProcessInference` from the engine output
scores: index of the running maximum under strict `>` comparison starting from
index 0. -/
def predicted_class (out : List Int) : Nat :=
  match out with
  | [] => 0
  | x :: xs => predictedClassAux xs 1 0 x

/-- `SendResult` of `main.c`: `snprintf(result, 32, "%d\r\n", predicted_class)`
followed by `HAL_UART_Transmit`. -/
def SendResult (cls : Nat) : UartAction := .transmit (toString cls ++ "\r\n")

/-- `ProcessInference` of `main.c`, as the list of transmissions it performs
given the current image frame: quantize, run the engine, then either send the
predicted class or the fixed inference-failure message. -/
def ProcessInference (eng : Engine) (img : List Nat) : List UartAction :=
  match AI_Run eng (quantize img) with
  | some out => [SendResult (predicted_class out)]
  | none => [.transmit "ERROR: Inference failed\r\n"]


/-- `HAL_UART_RxCpltCallback` of `main.c` (the `huart->Instance == USART2`
branch), returning the updated globals and the transmissions it performs
(this callback performs none).  In `STATE_WAIT_START` it compares
`start_cmd_buffer` against `"START"`: on a match it moves to
`STATE_RECEIVE_IMAGE` and arms a receive of `IMG_SIZE` bytes into
`img_buffer`; otherwise it re-arms the 5-byte command receive.  In
`STATE_RECEIVE_IMAGE` it raises `rx_complete` and moves to
`STATE_PROCESS_IMAGE`.  In any other state it does nothing. -/
def HAL_UART_RxCpltCallback (s : Sys) : Sys × List UartAction :=
  match s.app_state with
  | .STATE_WAIT_START =>
    if s.start_cmd_buffer = START_TOKEN then
      (HAL_UART_Receive_IT { s with app_state := .STATE_RECEIVE_IMAGE } .imgBuf, [])
    else
      (HAL_UART_Receive_IT s .cmdBuf, [])
  | .STATE_RECEIVE_IMAGE =>
    ({ s with rx_complete := true, app_state := .STATE_PROCESS_IMAGE }, [])
  | _ => (s, [])

/-- `HAL_UART_ErrorCallback` of `main.c` (the `huart->Instance == USART2`
branch): raise `rx_error`, fall back to `STATE_IDLE`, and transmit the fixed
UART-error message. -/
def HAL_UART_ErrorCallback (s : Sys) : Sys × List UartAction :=
  ({ s with rx_error := true, app_state := .STATE_IDLE },
   [.transmit "ERROR: UART error\r\n"])

/-- Store received bytes into the buffer the receive was armed for (done by
the interrupt-driven HAL before it invokes the completion callback). -/
def fillBuffer (s : Sys) (t : RxTarget) (data : List Nat) : Sys :=
  match t with
  | .cmdBuf => { s with start_cmd_buffer := data }
  | .imgBuf => { s with img_buffer := data }

/-- A receive-complete event on the buffer `t` the outstanding receive was
armed for: the HAL stores the `rxLen t` received bytes, concludes (disarms)
the receive, and invokes `HAL_UART_RxCpltCallback`. -/
def rxCompleteEvent (s : Sys) (t : RxTarget) (data : List Nat) : Sys × List UartAction :=
  HAL_UART_RxCpltCallback (fillBuffer { s with armed := none } t data)

/-- A receive-error event: the HAL aborts (disarms) the outstanding receive
and invokes `HAL_UART_ErrorCallback`; the partial contents of the armed
buffer are never delivered. -/
def rxErrorEvent (s : Sys) : Sys × List UartAction :=
  HAL_UART_ErrorCallback { s with armed := none }

/-- One atomic section of the polling loop of `main`:
at `checkComplete`, test-and-clear `rx_complete` (entering the branch body);
at `runPipeline`, run `ProcessInference` to completion, set
`app_state = STATE_WAIT_START` and re-arm the 5-byte command receive;
at `checkError`, test-and-clear `rx_error`, and when it was set, set
`app_state = STATE_WAIT_START` and re-arm the 5-byte command receive. -/
def loopStep (eng : Engine) (s : Sys) : Sys × List UartAction :=
  match s.pc with
  | .checkComplete =>
    if s.rx_complete then
      ({ s with rx_complete := false, pc := .runPipeline }, [])
    else
      ({ s with pc := .checkError }, [])
  | .runPipeline =>
    (HAL_UART_Receive_IT
      { s with app_state := .STATE_WAIT_START, pc := .checkError } .cmdBuf,
     ProcessInference eng s.img_buffer)
  | .checkError =>
    if s.rx_error then
      (HAL_UART_Receive_IT
        { s with rx_error := false, app_state := .STATE_WAIT_START,
                 pc := .checkComplete } .cmdBuf, [])
    else
      ({ s with pc := .checkComplete }, [])

/-- The state of the globals right after the successful-initialization path
of `main`: ready banner sent, `app_state = STATE_WAIT_START`, first 5-byte
command receive armed, both flags clear, statically zero-initialized
buffers. -/
def initSys : Sys :=
  HAL_UART_Receive_IT
    { app_state := .STATE_WAIT_START
      start_cmd_buffer := List.replicate 5 0
      img_buffer := List.replicate IMG_SIZE 0
      rx_complete := false
      rx_error := false
      armed := none
      armBusy := false
      pc := .checkComplete } .cmdBuf

/-- `AI_Init` of `main.c`, abstracted over the Engine collaborator: 0 when
`ai_network_create_and_init` succeeds and the input/output handles are
non-null (`Engine.ready`), -1 otherwise. -/
def AI_Init (eng : Engine) : Int := if eng.ready then 0 else -1

/-- The device after boot: either halted forever in `while(1) {}` after a
fatal initialization failure, or live with the polling loop running over the
globals. -/
inductive Device where
  | halted
  | live (s : Sys)
deriving DecidableEq, Repr

/-- The startup path of `main` after peripheral bring-up: on `AI_Init`
failure, transmit the failure message and halt permanently; on success,
transmit the readiness banner, enter `STATE_WAIT_START`, arm the first
5-byte command receive and fall into the polling loop. -/
def mainBoot (eng : Engine) : Device × List UartAction :=
  if AI_Init eng ≠ 0 then
    (.halted, [.transmit "AI Init Failed!\r\n"])
  else
    (.live initSys, [.transmit "STM32F411 Ready - Cube AI Initialized\r\n"])

/-- Interleaving semantics of the live system: a Platform receive-complete or
receive-error event (deliverable only while a receive is outstanding, with
exactly the requested number of bytes on completion) may fire between any two
atomic sections of the polling loop. -/
inductive Step (eng : Engine) : Sys → Sys → Prop where
  | rxComplete (s : Sys) (t : RxTarget) (data : List Nat)
      (harmed : s.armed = some t) (hlen : data.length = rxLen t) :
      Step eng s (rxCompleteEvent s t data).1
  | rxError (s : Sys) (t : RxTarget) (harmed : s.armed = some t) :
      Step eng s (rxErrorEvent s).1
  | loop (s : Sys) : Step eng s (loopStep eng s).1

/-- States of the globals reachable from `from_` by the interleaving
semantics. -/
def ReachableFrom (eng : Engine) (a b : Sys) : Prop :=
  Relation.ReflTransGen (Step eng) a b

/-- States reachable after a successful boot. -/
def Reachable (eng : Engine) (s : Sys) : Prop :=
  ReachableFrom eng initSys s

/-- Steps of the whole device: a halted device stays halted and does
nothing; a live device steps by the interleaving semantics. -/
inductive DStep (eng : Engine) : Device → Device → Prop where
  | halt : DStep eng .halted .halted
  | live (s s' : Sys) : Step eng s s' → DStep eng (.live s) (.live s')

/-- Invariant-carrying specification of the argmax scan: if on entry `pred`
is a strictly-first maximum of the prefix `o[0..i)` with value `maxp`, and
`xs` is the suffix of `o` from index `i`, then the scan returns the index of
the first occurrence of the maximum of all of `o`. -/
lemma predictedClassAux_spec (xs : List Int) (i pred : Nat) (maxp : Int)
    (o : List Int)
    (hpi : pred < i) (hlen : i + xs.length = o.length)
    (hsuf : ∀ k, k < xs.length → xs.getD k 0 = o.getD (i + k) 0)
    (hmax : o.getD pred 0 = maxp)
    (hub : ∀ j, j < i → o.getD j 0 ≤ maxp)
    (hstrict : ∀ j, j < pred → o.getD j 0 < maxp) :
    predictedClassAux xs i pred maxp < o.length ∧
    (∀ j, j < o.length →
      o.getD j 0 ≤ o.getD (predictedClassAux xs i pred maxp) 0) ∧
    (∀ j, j < predictedClassAux xs i pred maxp →
      o.getD j 0 < o.getD (predictedClassAux xs i pred maxp) 0) := by
  induction xs generalizing i pred maxp with
  | nil =>
    have hi : i = o.length := by simpa using hlen
    refine ⟨by simpa [predictedClassAux, hi] using hpi, ?_, ?_⟩
    · intro j hj
      simp only [predictedClassAux]
      rw [hmax]
      exact hub j (hi ▸ hj)
    · intro j hj
      have hj' : j < pred := by simpa [predictedClassAux] using hj
      simp only [predictedClassAux]
      rw [hmax]
      exact hstrict j hj'
  | cons x xs ih =>
    have hx : o.getD i 0 = x := by
      have := hsuf 0 (by simp)
      simpa using this.symm
    by_cases hcmp : maxp < x
    · have hres : predictedClassAux (x :: xs) i pred maxp
          = predictedClassAux xs (i + 1) i x := by
        simp [predictedClassAux, hcmp]
      rw [hres]
      refine ih (i + 1) i x (Nat.lt_succ_self i) (by simp at hlen ⊢; omega) ?_ hx ?_ ?_
      · intro k hk
        have := hsuf (k + 1) (by simpa using Nat.succ_lt_succ hk)
        simpa [Nat.add_comm, Nat.add_assoc, Nat.add_left_comm] using this
      · intro j hj
        rcases Nat.lt_succ_iff_lt_or_eq.mp hj with hj' | hj'
        · exact le_of_lt (lt_of_le_of_lt (hub j hj') hcmp)
        · subst hj'; exact le_of_eq hx
      · intro j hj
        exact lt_of_le_of_lt (hub j hj) hcmp
    · have hres : predictedClassAux (x :: xs) i pred maxp
          = predictedClassAux xs (i + 1) pred maxp := by
        simp [predictedClassAux, hcmp]
      rw [hres]
      refine ih (i + 1) pred maxp (Nat.lt_succ_of_lt hpi) (by simp at hlen ⊢; omega)
        ?_ hmax ?_ hstrict
      · intro k hk
        have := hsuf (k + 1) (by simpa using Nat.succ_lt_succ hk)
        simpa [Nat.add_comm, Nat.add_assoc, Nat.add_left_comm] using this
      · intro j hj
        rcases Nat.lt_succ_iff_lt_or_eq.mp hj with hj' | hj'
        · exact hub j hj'
        · subst hj'; rw [hx]; exact le_of_not_lt hcmp

/-- C2: for every 10-element Quantized Output Vector, the Predicted Class is
in `[0, 10)` and is the index of the first occurrence of the maximum value:
every element is `≤` the element at the Predicted Class, and every element at
a strictly smaller index is `<` it (strict `>` scan, lowest index wins every
tie). -/
theorem predicted_class_first_max (o : List Int) (h : o.length = NUM_CLASSES) :
    predicted_class o < NUM_CLASSES ∧
    (∀ j, j < NUM_CLASSES → o.getD j 0 ≤ o.getD (predicted_class o) 0) ∧
    (∀ j, j < predicted_class o → o.getD j 0 < o.getD (predicted_class o) 0) := by
  match o, h with
  | x :: xs, h =>
    have hlen : (1 : Nat) + xs.length = (x :: xs).length := by simp [Nat.add_comm]
    have hspec := predictedClassAux_spec xs 1 0 x (x :: xs) Nat.one_pos hlen
      (by intro k hk; simp [Nat.add_comm]) (by simp)
      (by intro j hj; interval_cases j; simp)
      (by intro j hj; omega)
    have hpc : predicted_class (x :: xs) = predictedClassAux xs 1 0 x := rfl
    rw [hpc]
    exact ⟨h ▸ hspec.1, fun j hj => hspec.2.1 j (h ▸ hj), hspec.2.2⟩

/-- C2 witness: on the concrete tied vector `[5,5,3,0,0,0,0,0,0,0]` the
theorem applies and the Predicted Class is 0, never 1. -/
theorem predicted_class_first_max_witness :
    ([5, 5, 3, 0, 0, 0, 0, 0, 0, 0] : List Int).length = NUM_CLASSES ∧
    predicted_class [5, 5, 3, 0, 0, 0, 0, 0, 0, 0] < NUM_CLASSES ∧
    predicted_class [5, 5, 3, 0, 0, 0, 0, 0, 0, 0] = 0 :=
  ⟨by decide,
   (predicted_class_first_max [5, 5, 3, 0, 0, 0, 0, 0, 0, 0] (by decide)).1,
   by decide⟩

/-- On an in-range byte the C cast never wraps: the quantized value is
exactly the sample minus 128. -/
lemma quantizeByte_eq (b : Nat) (hb : b < 256) : quantizeByte b = (b : Int) - 128 := by
  unfold quantizeByte toInt8
  have h0 : ((b : Int) - 128 + 128) = (b : Int) := by ring
  rw [h0, Int.emod_eq_of_lt (by positivity) (by exact_mod_cast hb)]

/-- C3: for every 784-byte image frame of in-range samples, quantization is
total and pointwise exact: same length, and at every index `i < 784` the
quantized value equals `raw[i] - 128`, lying in `[-128, 127]` with no
clamping, order preserved 1:1. -/
theorem quantize_pointwise (raw : List Nat) (hlen : raw.length = IMG_SIZE)
    (hb : ∀ b ∈ raw, b < 256) :
    (quantize raw).length = IMG_SIZE ∧
    ∀ i, i < IMG_SIZE →
      (quantize raw).getD i 0 = (raw.getD i 0 : Int) - 128 ∧
      -128 ≤ (quantize raw).getD i 0 ∧ (quantize raw).getD i 0 ≤ 127 := by
  have hql : (quantize raw).length = IMG_SIZE := by simpa [quantize] using hlen
  refine ⟨hql, fun i hi => ?_⟩
  have hiq : i < (quantize raw).length := hql ▸ hi
  have hir : i < raw.length := hlen ▸ hi
  have hmem : raw[i] ∈ raw := List.getElem_mem hir
  have hbi : raw[i] < 256 := hb _ hmem
  have hval : (quantize raw).getD i 0 = (raw.getD i 0 : Int) - 128 := by
    rw [List.getD_eq_getElem _ _ hiq, List.getD_eq_getElem _ _ hir]
    simp only [quantize, List.getElem_map]
    exact quantizeByte_eq _ hbi
  refine ⟨hval, ?_, ?_⟩
  · rw [hval]; have : (0 : Int) ≤ (raw.getD i 0 : Int) := Int.ofNat_nonneg _
    omega
  · rw [hval]
    have : raw.getD i 0 < 256 := by
      rw [List.getD_eq_getElem _ _ hir]; exact hbi
    omega

/-- The statically zero-initialized 784-byte image frame. -/
def zeroFrame : List Nat := List.replicate IMG_SIZE 0

/-- C3 witness: the theorem applies to the concrete all-zero 784-byte frame,
where every quantized value is `-128`. -/
theorem quantize_pointwise_witness :
    zeroFrame.length = IMG_SIZE ∧
    (∀ b ∈ zeroFrame, b < 256) ∧
    ((quantize zeroFrame).length = IMG_SIZE ∧
      ∀ i, i < IMG_SIZE →
        (quantize zeroFrame).getD i 0 = (zeroFrame.getD i 0 : Int) - 128 ∧
          -128 ≤ (quantize zeroFrame).getD i 0 ∧
          (quantize zeroFrame).getD i 0 ≤ 127) :=
  ⟨List.length_replicate _ _,
   fun b hb => by simp [zeroFrame, List.eq_of_mem_replicate hb],
   quantize_pointwise zeroFrame (List.length_replicate _ _)
     (fun b hb => by simp [zeroFrame, List.eq_of_mem_replicate hb])⟩

/-- C1: in `STATE_WAIT_START`, a receive-complete event on the 5-byte command
buffer transmits nothing in every case; if the received bytes equal
`"START"` the machine moves to `STATE_RECEIVE_IMAGE` with a receive of
exactly `IMG_SIZE = 784` bytes armed into the image buffer, and for any other
content it stays in `STATE_WAIT_START` with a 5-byte receive re-armed into
the command buffer (the bytes are silently discarded). -/
theorem start_command_dispatch (s : Sys) (data : List Nat)
    (hstate : s.app_state = .STATE_WAIT_START)
    (_hlen : data.length = 5) :
    (rxCompleteEvent s .cmdBuf data).2 = [] ∧
    (data = START_TOKEN →
      (rxCompleteEvent s .cmdBuf data).1.app_state = .STATE_RECEIVE_IMAGE ∧
      (rxCompleteEvent s .cmdBuf data).1.armed = some .imgBuf ∧
      rxLen .imgBuf = 784) ∧
    (data ≠ START_TOKEN →
      (rxCompleteEvent s .cmdBuf data).1.app_state = .STATE_WAIT_START ∧
      (rxCompleteEvent s .cmdBuf data).1.armed = some .cmdBuf ∧
      rxLen .cmdBuf = 5) := by
  by_cases hcmd : data = START_TOKEN <;>
    simp [rxCompleteEvent, fillBuffer, HAL_UART_RxCpltCallback,
      HAL_UART_Receive_IT, hstate, hcmd, rxLen, IMG_SIZE]

/-- A concrete waiting state used to instantiate the scenario theorems. -/
def waitSys : Sys :=
  { app_state := .STATE_WAIT_START
    start_cmd_buffer := List.replicate 5 0
    img_buffer := zeroFrame
    rx_complete := false
    rx_error := false
    armed := some .cmdBuf
    armBusy := false
    pc := .checkComplete }

/-- C1 witness: the theorem applied to the concrete waiting state, once with
the real `"START"` bytes and once with the invalid token `"STARX"`. -/
theorem start_command_dispatch_witness :
    (rxCompleteEvent waitSys .cmdBuf START_TOKEN).1.app_state
        = .STATE_RECEIVE_IMAGE ∧
    (rxCompleteEvent waitSys .cmdBuf [83, 84, 65, 82, 88]).1.app_state
        = .STATE_WAIT_START ∧
    (rxCompleteEvent waitSys .cmdBuf [83, 84, 65, 82, 88]).1.armed
        = some .cmdBuf :=
  ⟨((start_command_dispatch waitSys START_TOKEN rfl (by decide)).2.1 rfl).1,
   ((start_command_dispatch waitSys [83, 84, 65, 82, 88] rfl rfl).2.2
      (by decide)).1,
   ((start_command_dispatch waitSys [83, 84, 65, 82, 88] rfl rfl).2.2
      (by decide)).2.1⟩

/-- C9: the receive-complete handler, invoked while `app_state` is
`STATE_IDLE` or `STATE_PROCESS_IMAGE`, is a no-op: it returns the globals
unchanged (no state change, no flag set, no buffer write, no receive armed)
and transmits nothing. -/
theorem rx_complete_ignored_when_inactive (s : Sys)
    (h : s.app_state = .STATE_IDLE ∨ s.app_state = .STATE_PROCESS_IMAGE) :
    HAL_UART_RxCpltCallback s = (s, []) := by
  rcases h with h | h <;> simp [HAL_UART_RxCpltCallback, h]

/-- A concrete state in `STATE_IDLE`. -/
def idleSys : Sys := { waitSys with app_state := .STATE_IDLE, armed := none }

/-- C9 witness: the handler is the identity on the concrete idle state. -/
theorem rx_complete_ignored_when_inactive_witness :
    HAL_UART_RxCpltCallback idleSys = (idleSys, []) :=
  rx_complete_ignored_when_inactive idleSys (Or.inl rfl)

/-- C4: a receive-error event while any receive is outstanding (any active
state): the outstanding receive is aborted and its buffer abandoned
(`rx_complete` stays clear, so its contents are never consumed), the fixed
message `"ERROR: UART error\r\n"` is transmitted exactly once across the
whole recovery, and after the next pass of the polling loop the device is in
`STATE_WAIT_START` with the 5-byte command receive re-armed; the fault is not
fatal — a fresh `"START"` is then accepted into `STATE_RECEIVE_IMAGE`. -/
theorem uart_error_recovery (eng : Engine) (s : Sys) (t : RxTarget)
    (_harmed : s.armed = some t)
    (hc : s.rx_complete = false)
    (hpc : s.pc = .checkComplete) :
    (rxErrorEvent s).2 = [.transmit "ERROR: UART error\r\n"] ∧
    (rxErrorEvent s).1.armed = none ∧
    (rxErrorEvent s).1.rx_complete = false ∧
    (loopStep eng (rxErrorEvent s).1).2 = [] ∧
    (loopStep eng (loopStep eng (rxErrorEvent s).1).1).2 = [] ∧
    (loopStep eng (loopStep eng (rxErrorEvent s).1).1).1.app_state
        = .STATE_WAIT_START ∧
    (loopStep eng (loopStep eng (rxErrorEvent s).1).1).1.armed
        = some .cmdBuf ∧
    rxLen .cmdBuf = 5 ∧
    (rxCompleteEvent (loopStep eng (loopStep eng (rxErrorEvent s).1).1).1
        .cmdBuf START_TOKEN).1.app_state = .STATE_RECEIVE_IMAGE ∧
    (rxCompleteEvent (loopStep eng (loopStep eng (rxErrorEvent s).1).1).1
        .cmdBuf START_TOKEN).1.armed = some .imgBuf := by
  simp [rxErrorEvent, HAL_UART_ErrorCallback, loopStep, hpc, hc,
    HAL_UART_Receive_IT, rxCompleteEvent, fillBuffer,
    HAL_UART_RxCpltCallback, rxLen]

/-- A concrete working Inference Engine: ready, and every run returns batch
count 1 with the all-zero score vector. -/
def engOk : Engine := ⟨true, fun _ => (1, List.replicate NUM_CLASSES 0)⟩

/-- A concrete failed Inference Engine: initialization never succeeded. -/
def engFail : Engine := ⟨false, fun _ => (1, List.replicate NUM_CLASSES 0)⟩

/-- C4 witness: the theorem applied to the concrete waiting state with its
command receive outstanding. -/
theorem uart_error_recovery_witness :
    (rxErrorEvent waitSys).2 = [.transmit "ERROR: UART error\r\n"] ∧
    (loopStep engOk (loopStep engOk (rxErrorEvent waitSys).1).1).1.app_state
        = .STATE_WAIT_START ∧
    (loopStep engOk (loopStep engOk (rxErrorEvent waitSys).1).1).1.armed
        = some .cmdBuf :=
  ⟨(uart_error_recovery engOk waitSys .cmdBuf rfl rfl rfl).1,
   (uart_error_recovery engOk waitSys .cmdBuf rfl rfl rfl).2.2.2.2.2.1,
   (uart_error_recovery engOk waitSys .cmdBuf rfl rfl rfl).2.2.2.2.2.2.1⟩

/-- C5: once the polling loop sees `rx_complete` set (a completed image
frame), it enters the pipeline section, whose transmissions are exactly those
of `ProcessInference`; afterwards — engine success or failure alike — the
machine is back in `STATE_WAIT_START` with the 5-byte command receive
re-armed (never fatal).  Both failure modes of `AI_Run` — engine handles not
initialized, and batch count different from 1 — surface as the single fixed
message `"ERROR: Inference failed\r\n"`. -/
theorem inference_completion_recovery (eng : Engine) (s : Sys)
    (hc : s.rx_complete = true)
    (hpc : s.pc = .checkComplete)
    (harmed : s.armed = none) :
    (loopStep eng s).2 = [] ∧
    (loopStep eng s).1.pc = .runPipeline ∧
    (loopStep eng (loopStep eng s).1).2 = ProcessInference eng s.img_buffer ∧
    (loopStep eng (loopStep eng s).1).1.app_state = .STATE_WAIT_START ∧
    (loopStep eng (loopStep eng s).1).1.armed = some .cmdBuf ∧
    (loopStep eng (loopStep eng s).1).1.armBusy = s.armBusy ∧
    rxLen .cmdBuf = 5 ∧
    (eng.ready = false →
      ProcessInference eng s.img_buffer
        = [.transmit "ERROR: Inference failed\r\n"]) ∧
    (∀ b out, eng.run (quantize s.img_buffer) = (b, out) → b ≠ 1 →
      ProcessInference eng s.img_buffer
        = [.transmit "ERROR: Inference failed\r\n"]) := by
  refine ⟨?_, ?_, ?_, ?_, ?_, ?_, rfl, ?_, ?_⟩
  · simp [loopStep, hpc, hc]
  · simp [loopStep, hpc, hc]
  · simp [loopStep, hpc, hc, HAL_UART_Receive_IT, harmed]
  · simp [loopStep, hpc, hc, HAL_UART_Receive_IT, harmed]
  · simp [loopStep, hpc, hc, HAL_UART_Receive_IT, harmed]
  · simp [loopStep, hpc, hc, HAL_UART_Receive_IT, harmed]
  · intro hnr
    simp [ProcessInference, AI_Run, hnr]
  · intro b out hrun hb
    simp [ProcessInference, AI_Run, hrun, hb]

/-- A concrete state with a completed image frame pending dispatch. -/
def readySys : Sys :=
  { waitSys with app_state := .STATE_PROCESS_IMAGE, rx_complete := true,
                 armed := none }

/-- C5 witness: the theorem applied to the concrete pending state, once with
the working engine and once with the never-initialized engine (whose outcome
is the fixed failure message). -/
theorem inference_completion_recovery_witness :
    (loopStep engOk (loopStep engOk readySys).1).1.app_state
        = .STATE_WAIT_START ∧
    (loopStep engOk (loopStep engOk readySys).1).1.armed = some .cmdBuf ∧
    ProcessInference engFail readySys.img_buffer
        = [.transmit "ERROR: Inference failed\r\n"] :=
  ⟨(inference_completion_recovery engOk readySys rfl rfl rfl).2.2.2.1,
   (inference_completion_recovery engOk readySys rfl rfl rfl).2.2.2.2.1,
   (inference_completion_recovery engFail readySys rfl rfl rfl).2.2.2.2.2.2.2.1
     rfl⟩

/-- C8: the pipeline section of the polling loop is a pure function of the
784-byte image frame: its transmissions equal `ProcessInference` on the
frame alone, two states at the pipeline section agreeing on the frame produce
identical transmissions regardless of any other component of the globals,
and the frame itself is left untouched, so running the same frame through the
pipeline twice yields the same result both times. -/
theorem pipeline_pure_function (eng : Engine) (s1 s2 : Sys)
    (h1 : s1.pc = .runPipeline) (h2 : s2.pc = .runPipeline)
    (himg : s1.img_buffer = s2.img_buffer) :
    (loopStep eng s1).2 = ProcessInference eng s1.img_buffer ∧
    (loopStep eng s1).2 = (loopStep eng s2).2 ∧
    (loopStep eng s1).1.img_buffer = s1.img_buffer ∧
    ProcessInference eng (loopStep eng s1).1.img_buffer
        = ProcessInference eng s1.img_buffer := by
  refine ⟨by simp [loopStep, h1], ?_, ?_, ?_⟩
  · simp [loopStep, h1, h2, himg]
  · cases harm : s1.armed <;> simp [loopStep, h1, HAL_UART_Receive_IT, harm]
  · cases harm : s1.armed <;> simp [loopStep, h1, HAL_UART_Receive_IT, harm]

/-- A concrete state at the pipeline section. -/
def pipeSys : Sys := { readySys with rx_complete := false, pc := .runPipeline }

/-- A second concrete pipeline-section state: same frame, different flags and
protocol state. -/
def pipeSys2 : Sys :=
  { pipeSys with rx_error := true, app_state := .STATE_IDLE }

/-- C8 witness: the theorem applied to two concrete pipeline-section states
sharing the all-zero frame but differing elsewhere. -/
theorem pipeline_pure_function_witness :
    (loopStep engOk pipeSys).2 = ProcessInference engOk pipeSys.img_buffer ∧
    (loopStep engOk pipeSys).2 = (loopStep engOk pipeSys2).2 :=
  ⟨(pipeline_pure_function engOk pipeSys pipeSys rfl rfl rfl).1,
   (pipeline_pure_function engOk pipeSys pipeSys2 rfl rfl rfl).2.1⟩

/-- C10: when the polling loop finds both `rx_complete` and `rx_error` set,
the completed frame wins: the first section enters the `rx_complete` branch
leaving the error pending, the second section runs the pipeline on the
completed frame and transmits its result (exactly one transmission), and only
the third section performs the error-path handling — clearing `rx_error`,
setting `STATE_WAIT_START` and issuing its re-arm — so the completed frame is
never discarded by the error. -/
theorem completed_frame_before_error (eng : Engine) (s : Sys)
    (hc : s.rx_complete = true)
    (he : s.rx_error = true)
    (hpc : s.pc = .checkComplete) :
    (loopStep eng s).2 = [] ∧
    (loopStep eng s).1.pc = .runPipeline ∧
    (loopStep eng s).1.rx_error = true ∧
    (loopStep eng s).1.rx_complete = false ∧
    (loopStep eng (loopStep eng s).1).2 = ProcessInference eng s.img_buffer ∧
    (∃ m, ProcessInference eng s.img_buffer = [.transmit m]) ∧
    (loopStep eng (loopStep eng s).1).1.rx_error = true ∧
    (loopStep eng (loopStep eng s).1).1.pc = .checkError ∧
    (loopStep eng (loopStep eng (loopStep eng s).1).1).1.rx_error = false ∧
    (loopStep eng (loopStep eng (loopStep eng s).1).1).1.app_state
        = .STATE_WAIT_START ∧
    (loopStep eng (loopStep eng (loopStep eng s).1).1).1.pc
        = .checkComplete := by
  have hmsg : ∃ m, ProcessInference eng s.img_buffer = [.transmit m] := by
    unfold ProcessInference
    cases AI_Run eng (quantize s.img_buffer) with
    | none => exact ⟨_, rfl⟩
    | some out => exact ⟨_, rfl⟩
  cases harm : s.armed <;>
    refine ⟨by simp [loopStep, hpc, hc], by simp [loopStep, hpc, hc],
      by simp [loopStep, hpc, hc, he], by simp [loopStep, hpc, hc],
      by simp [loopStep, hpc, hc, HAL_UART_Receive_IT, harm], hmsg,
      by simp [loopStep, hpc, hc, he, HAL_UART_Receive_IT, harm],
      by simp [loopStep, hpc, hc, HAL_UART_Receive_IT, harm],
      by simp [loopStep, hpc, hc, he, HAL_UART_Receive_IT, harm],
      by simp [loopStep, hpc, hc, he, HAL_UART_Receive_IT, harm],
      by simp [loopStep, hpc, hc, he, HAL_UART_Receive_IT, harm]⟩

/-- A concrete state with both a completed frame and a pending error. -/
def bothFlagsSys : Sys := { readySys with rx_error := true }

/-- C10 witness: the theorem applied to the concrete double-flag state. -/
theorem completed_frame_before_error_witness :
    (loopStep engOk (loopStep engOk bothFlagsSys).1).2
        = ProcessInference engOk bothFlagsSys.img_buffer ∧
    (loopStep engOk (loopStep engOk bothFlagsSys).1).1.rx_error = true ∧
    (loopStep engOk
        (loopStep engOk (loopStep engOk bothFlagsSys).1).1).1.rx_error
        = false :=
  ⟨(completed_frame_before_error engOk bothFlagsSys rfl rfl rfl).2.2.2.2.1,
   (completed_frame_before_error engOk bothFlagsSys rfl rfl rfl).2.2.2.2.2.2.1,
   (completed_frame_before_error engOk bothFlagsSys rfl rfl
      rfl).2.2.2.2.2.2.2.2.1⟩

/-- The inductive invariant of the interleaving semantics: no arm request
has ever found the receive channel busy; whenever a completion or an error
flag is pending, no receive is outstanding (the flagged buffer is idle);
the two flags are never pending together; and at the pipeline section no
receive is outstanding and no flag is pending. -/
def SysInv (s : Sys) : Prop :=
  s.armBusy = false ∧
  (s.rx_complete = true → s.armed = none) ∧
  (s.rx_error = true → s.armed = none) ∧
  ¬(s.rx_complete = true ∧ s.rx_error = true) ∧
  (s.pc = .runPipeline →
    s.armed = none ∧ s.rx_complete = false ∧ s.rx_error = false)

/-- The boot state satisfies the invariant. -/
lemma inv_initSys : SysInv initSys := by
  simp [SysInv, initSys, HAL_UART_Receive_IT]

/-- Every step of the interleaving semantics preserves the invariant. -/
lemma inv_step {eng : Engine} {s s' : Sys} (hinv : SysInv s)
    (hstep : Step eng s s') : SysInv s' := by
  obtain ⟨hbusy, hcompl, herr, hmutex, hpipe⟩ := hinv
  cases hstep with
  | rxComplete t data harmed hlen =>
    have hc : s.rx_complete = false := by
      cases h : s.rx_complete
      · rfl
      · rw [hcompl h] at harmed; cases harmed
    have he : s.rx_error = false := by
      cases h : s.rx_error
      · rfl
      · rw [herr h] at harmed; cases harmed
    have hpc : s.pc ≠ .runPipeline := by
      intro h
      rw [(hpipe h).1] at harmed; cases harmed
    cases hs : s.app_state <;> cases t <;>
      by_cases hcmd : s.start_cmd_buffer = START_TOKEN <;>
      by_cases hdat : data = START_TOKEN <;>
      simp_all [SysInv, rxCompleteEvent, fillBuffer, HAL_UART_RxCpltCallback,
        HAL_UART_Receive_IT]
  | rxError t harmed =>
    have hc : s.rx_complete = false := by
      cases h : s.rx_complete
      · rfl
      · rw [hcompl h] at harmed; cases harmed
    have hpc : s.pc ≠ .runPipeline := by
      intro h
      rw [(hpipe h).1] at harmed; cases harmed
    simp_all [SysInv, rxErrorEvent, HAL_UART_ErrorCallback]
  | loop =>
    cases hpc : s.pc with
    | checkComplete =>
      cases hc : s.rx_complete
      · simp_all [SysInv, loopStep]
      · have he : s.rx_error = false := by
          cases h : s.rx_error
          · rfl
          · exact absurd ⟨hc, h⟩ hmutex
        simp_all [SysInv, loopStep]
    | runPipeline =>
      obtain ⟨harm, hc, he⟩ := hpipe hpc
      simp_all [SysInv, loopStep, HAL_UART_Receive_IT]
    | checkError =>
      cases he : s.rx_error
      · simp_all [SysInv, loopStep]
      · have hc : s.rx_complete = false := by
          cases h : s.rx_complete
          · rfl
          · exact absurd ⟨h, he⟩ hmutex
        have harm := herr he
        simp_all [SysInv, loopStep, HAL_UART_Receive_IT]

/-- Every state reachable after a successful boot satisfies the invariant. -/
lemma inv_reachable {eng : Engine} {s : Sys} (h : Reachable eng s) : SysInv s := by
  unfold Reachable ReachableFrom at h
  induction h with
  | refl => exact inv_initSys
  | tail _h hstep ih => exact inv_step ih hstep

/-- C6: in every state reachable after boot there is at most one outstanding
receive (`armed` is a single `Option`al request, and `armBusy = false` says
no `HAL_UART_Receive_IT` call ever found a receive already outstanding, i.e.
every buffer armed was fully idle); in particular at the pipeline section —
while `ProcessInference` is consuming the image buffer — no receive is
outstanding, and while a completed frame awaits the pipeline none is
armed into it. -/
theorem receive_arming_discipline (eng : Engine) (s : Sys)
    (h : Reachable eng s) :
    s.armBusy = false ∧
    (s.pc = .runPipeline → s.armed = none) ∧
    (s.rx_complete = true → s.armed = none) := by
  have hinv := inv_reachable h
  exact ⟨hinv.1, fun hp => (hinv.2.2.2.2 hp).1, hinv.2.1⟩

/-- C6 witness: the theorem applied to the boot state itself, reachable in
zero steps under the concrete working engine. -/
theorem receive_arming_discipline_witness :
    initSys.armBusy = false ∧
    (initSys.pc = .runPipeline → initSys.armed = none) ∧
    (initSys.rx_complete = true → initSys.armed = none) :=
  receive_arming_discipline engOk initSys Relation.ReflTransGen.refl

/-- C7: if engine initialization fails at boot, `main` transmits the failure
report and halts permanently — from the halted device no step ever leaves it,
so no further state transition, reception or transmission occurs.  If
initialization succeeds, `main` transmits the readiness banner and enters
`STATE_WAIT_START` exactly once with the first 5-byte command receive
armed. -/
theorem boot_fatal_or_ready (eng : Engine) :
    (eng.ready = false →
      mainBoot eng = (.halted, [.transmit "AI Init Failed!\r\n"]) ∧
      ∀ d, Relation.ReflTransGen (DStep eng) .halted d → d = .halted) ∧
    (eng.ready = true →
      mainBoot eng
        = (.live initSys,
           [.transmit "STM32F411 Ready - Cube AI Initialized\r\n"]) ∧
      initSys.app_state = .STATE_WAIT_START ∧
      initSys.armed = some .cmdBuf ∧ rxLen .cmdBuf = 5 ∧
      initSys.rx_complete = false ∧ initSys.rx_error = false) := by
  constructor
  · intro hnr
    refine ⟨by simp [mainBoot, AI_Init, hnr], ?_⟩
    intro d h
    induction h with
    | refl => rfl
    | tail _h hstep ih =>
      subst ih
      cases hstep
      rfl
  · intro hr
    refine ⟨by simp [mainBoot, AI_Init, hr], rfl, ?_, rfl, rfl, rfl⟩
    simp [initSys, HAL_UART_Receive_IT]

/-- C7 witness: the theorem applied to the concrete never-ready engine (boot
halts after the failure report) and to the concrete working engine (boot
banners and waits for a command). -/
theorem boot_fatal_or_ready_witness :
    mainBoot engFail = (.halted, [.transmit "AI Init Failed!\r\n"]) ∧
    mainBoot engOk
      = (.live initSys,
         [.transmit "STM32F411 Ready - Cube AI Initialized\r\n"]) ∧
    initSys.app_state = .STATE_WAIT_START :=
  ⟨((boot_fatal_or_ready engFail).1 rfl).1,
   ((boot_fatal_or_ready engOk).2 rfl).1,
   ((boot_fatal_or_ready engOk).2 rfl).2.1⟩
